import Mathlib

/-!
Verification of the editing core of the Phichain chart editor
(repository Winamin/Phichain) against its natural-language specification.

The Rust sources are shallowly embedded: the chart data model
(`phichain-chart`), the clipboard systems
(`phichain-editor/src/editing/clipboard/mod.rs`), the hold drag-resize
logic (`phichain-editor/src/timeline/note.rs`), the line commands
(`phichain-editor/src/editing/command/line.rs`), the action registry
(`phichain-editor/src/action/mod.rs`) and the project save system
(`src/project.rs`).  Pure functions become Lean functions; Bevy ECS
state becomes explicit record updates; the rational `Beat` type becomes
`ℚ` (the spec states that two beats are equal iff their reduced
rationals are equal, which is definitional for `ℚ`); the `f32` values
flowing through drag handling and beat/time conversion are modelled as
`ℚ` as well, with the conversion functions kept abstract as parameters.
-/

/-- Bevy entity identifier.  Entities are opaque ids; the editor relies on
them being stable (see `RemoveLine`). -/
abbrev Entity : Type := ℕ

/-- Action / hotkey identifier (`phichain-editor/src/identifier.rs`), a
dotted string such as `phichain.project.save`. -/
abbrev Identifier : Type := String

/-- Kind of a note (`phichain_chart::note::NoteKind`).  A hold carries its
duration `hold_beat` in beats. -/
inductive NoteKind where
  | tap
  | drag
  | flick
  | hold (hold_beat : ℚ)
deriving DecidableEq, Repr

/-- A note (`phichain_chart::note::Note`), attached to exactly one line.
Beats are exact rationals; the float shadow used during live dragging is
modelled explicitly in `HoldDragState` below. -/
structure Note where
  kind : NoteKind
  above : Bool
  beat : ℚ
  x : ℚ
  speed : ℚ
deriving DecidableEq, Repr

/-- Duration of a hold in beats; `0` for non-hold kinds.  Modelled from the
spec: for Hold, `end_beat = beat + hold_beat` with `hold_beat > 0`. -/
def Note.hold_beat (n : Note) : ℚ :=
  match n.kind with
  | .hold hb => hb
  | _ => 0

/-- End beat of a note: `beat + hold_beat` for holds, `beat` otherwise. -/
def Note.end_beat (n : Note) : ℚ :=
  n.beat + n.hold_beat

/-- Set the end beat of a hold by adjusting `hold_beat`; modelled from the
spec equation `end_beat = beat + hold_beat`.  Only meaningful (and only
used by the editor) on hold notes. -/
def Note.set_end_beat (n : Note) (e : ℚ) : Note :=
  match n.kind with
  | .hold _ => { n with kind := .hold (e - n.beat) }
  | _ => n

/-- Kind of a line event (`phichain_chart::event::LineEventKind`). -/
inductive LineEventKind where
  | x
  | y
  | rotation
  | opacity
  | speed
deriving DecidableEq, Repr

/-- Easing curve of a line event.  Modelled from the spec: the set of named
curves (abstracted here by an index) plus a custom cubic-bezier
`Custom(x1, y1, x2, y2)`.  No claim inspects the easing; events carry it
as plain data. -/
inductive Easing where
  | linear
  | curve (id : ℕ)
  | custom (x1 y1 x2 y2 : ℚ)
deriving DecidableEq, Repr

/-- A line event (`phichain_chart::event::LineEvent`), attached to exactly
one line, animating one property over `[start_beat, end_beat]`. -/
structure LineEvent where
  kind : LineEventKind
  start_beat : ℚ
  end_beat : ℚ
  start_value : ℚ
  end_value : ℚ
  easing : Easing
deriving DecidableEq, Repr

/-- The editor command enum (`phichain-editor/src/editing/command`), the
closed set of reversible edits that the clipboard and timeline emit via
`DoCommandEvent`.  Only the variants the verified systems construct are
modelled. -/
inductive EditorCommand where
  | CreateNote (line : Entity) (note : Note)
  | RemoveNote (entity : Entity)
  | CreateEvent (line : Entity) (event : LineEvent)
  | RemoveEvent (entity : Entity)
  | EditNote (entity : Entity) (old new : Note)
  | CommandSequence (commands : List EditorCommand)

/-- The clipboard resource (`EditorClipboard`): snapshot buffers of notes
and line events, with no owning-line information. -/
structure EditorClipboard where
  notes : List Note
  events : List LineEvent
deriving DecidableEq, Repr

/-- `EditorClipboard::clear`. -/
def EditorClipboard.clear : EditorClipboard :=
  { notes := [], events := [] }

/-- Minimum of a list of rationals, as Rust `Iterator::min` computes it
(`none` on an empty iterator). -/
def listMin : List ℚ → Option ℚ
  | [] => none
  | q :: qs =>
    match listMin qs with
    | none => some q
    | some m => some (min q m)

/-- The `min_beat` of the clipboard: minimum over buffered note beats
chained with buffered event start beats, exactly as
`notes.iter().map(|note| note.beat).chain(events.iter().map(|event| event.start_beat)).min()`. -/
def clipboard_min_beat (clipboard : EditorClipboard) : Option ℚ :=
  listMin (clipboard.notes.map (·.beat) ++ clipboard.events.map (·.start_beat))

/-- An axis-aligned rectangle with inclusive bounds, standing in for
`egui::Rect` / the `TimelineViewport`. -/
structure Rect where
  xmin : ℚ
  xmax : ℚ
  ymin : ℚ
  ymax : ℚ
deriving DecidableEq, Repr

/-- `Rect::contains` for a cursor position. -/
def Rect.containsPoint (r : Rect) (p : ℚ × ℚ) : Bool :=
  decide (r.xmin ≤ p.1) && decide (p.1 ≤ r.xmax) &&
    decide (r.ymin ≤ p.2) && decide (p.2 ≤ r.ymax)

/-- One column of the timeline container, as produced by
`ctx.settings.container.allocate(viewport)`: the x-range it occupies and
the line its timeline is bound to (`timeline.line_entity()`), `none` for
a timeline that binds dynamically to the selected line. -/
structure TimelineAllocation where
  xmin : ℚ
  xmax : ℚ
  line : Option Entity
deriving DecidableEq, Repr

/-- `x_range().contains(cursor_position.x)` for a column. -/
def TimelineAllocation.containsX (a : TimelineAllocation) (x : ℚ) : Bool :=
  decide (a.xmin ≤ x) && decide (x ≤ a.xmax)

/-- The environment `handle_paste_system` reads: the window cursor
position, the timeline viewport, the allocated timeline columns, and the
y-to-time, time-to-beat and quantization functions
(`ctx.y_to_time`, `bpm_list.beat_at(..).value()`, `ctx.settings.attach`),
kept abstract since their definitions live outside the editing core. -/
structure PasteContext where
  cursor : Option (ℚ × ℚ)
  viewport : Rect
  columns : List TimelineAllocation
  y_to_time : ℚ → ℚ
  beat_at : ℚ → ℚ
  attach : ℚ → ℚ

/-- The body of `handle_paste_system` (clipboard/mod.rs, run when the
paste hotkey is just pressed): bail out when the cursor is missing,
outside the viewport, or over no timeline column; otherwise target the
column's bound line or else the selected line, shift every buffered note
and event so the earliest lands on the quantized cursor beat, and emit
one `CommandSequence` (or nothing when the clipboard is empty).  The
clipboard is only read (`Res<EditorClipboard>`), so paste never changes
it, and the chart itself is only affected through the returned command. -/
def handle_paste_system (ctx : PasteContext) (clipboard : EditorClipboard)
    (selected_line : Entity) : Option EditorCommand :=
  match ctx.cursor with
  | none => none
  | some cursor_position =>
    if ¬ ctx.viewport.containsPoint cursor_position then none
    else
      match ctx.columns.find? (fun x => x.containsX cursor_position.1) with
      | none => none
      | some timeline =>
        let target_line := timeline.line.getD selected_line
        match clipboard_min_beat clipboard with
        | none => none
        | some min_beat =>
          let time := ctx.y_to_time cursor_position.2
          let beat := ctx.attach (ctx.beat_at time)
          let delta := beat - min_beat
          let sequence :=
            clipboard.notes.map
              (fun note => EditorCommand.CreateNote target_line
                { note with beat := note.beat + delta }) ++
            clipboard.events.map
              (fun event => EditorCommand.CreateEvent target_line
                { event with
                    start_beat := event.start_beat + delta,
                    end_beat := event.end_beat + delta })
          if ¬ sequence.isEmpty then
            some (EditorCommand.CommandSequence sequence)
          else none

/-- What a selected entity looks like to the clipboard systems: the copy
and cut loops try `note_query.get` then `event_query.get` and skip any
other selected entity. -/
inductive SelectedKind where
  | note (n : Note)
  | event (e : LineEvent)
  | other
deriving DecidableEq, Repr

/-- The body of `handle_copy_system` (run when the copy hotkey is just
pressed): clear the clipboard, then snapshot selected notes and events
by value. -/
def handle_copy_system (selected : List (Entity × SelectedKind)) :
    EditorClipboard :=
  selected.foldl
    (fun clipboard x =>
      match x.2 with
      | .note n => { clipboard with notes := clipboard.notes ++ [n] }
      | .event e => { clipboard with events := clipboard.events ++ [e] }
      | .other => clipboard)
    EditorClipboard.clear

/-- One iteration of the cut loop: a selected note or event is pushed to
the clipboard and its removal command collected; any other selected
entity is skipped. -/
def cut_step (acc : EditorClipboard × List EditorCommand)
    (x : Entity × SelectedKind) : EditorClipboard × List EditorCommand :=
  match x.2 with
  | .note n =>
    ({ acc.1 with notes := acc.1.notes ++ [n] },
      acc.2 ++ [EditorCommand.RemoveNote x.1])
  | .event e =>
    ({ acc.1 with events := acc.1.events ++ [e] },
      acc.2 ++ [EditorCommand.RemoveEvent x.1])
  | .other => acc

/-- The body of `handle_cut_system` (run when the cut hotkey is just
pressed): clear the clipboard, snapshot selected notes and events while
collecting the matching `RemoveNote` / `RemoveEvent` commands, and send
one `CommandSequence` unconditionally, even when empty. -/
def handle_cut_system (selected : List (Entity × SelectedKind)) :
    EditorClipboard × EditorCommand :=
  let r := selected.foldl cut_step (EditorClipboard.clear, [])
  (r.1, EditorCommand.CommandSequence r.2)

/-- The beat at which a command of a paste sequence creates an entity:
the note beat for `CreateNote`, the event start beat for `CreateEvent`. -/
def created_beat : EditorCommand → Option ℚ
  | .CreateNote _ note => some note.beat
  | .CreateEvent _ event => some event.start_beat
  | _ => none

/-- The line into which a command of a paste sequence creates an entity. -/
def created_line : EditorCommand → Option Entity
  | .CreateNote line _ => some line
  | .CreateEvent line _ => some line
  | _ => none

/-- The conversion functions the hold drag zones use
(`phichain-editor/src/timeline/note.rs`): `ctx.beat_to_y`,
`ctx.y_to_beat_f32` and the grid quantization `ctx.settings.attach`.
They depend on the tempo map, the timeline zoom and the grid settings,
none of which the drag logic inspects, so they stay abstract. -/
structure DragContext where
  beat_to_y : ℚ → ℚ
  y_to_beat_f32 : ℚ → ℚ
  attach : ℚ → ℚ

/-- The state `make_drag_zone` reads and writes across the frames of one
drag gesture on a hold: the live `Note` component, the float shadows of
its `beat` and `hold_beat` (`Beat::float_mut`, the transient preview
values mutated while dragging), and the drag-start snapshot stored in
egui temp data under the `hold-drag` id. -/
structure HoldDragState where
  note : Note
  beat_shadow : ℚ
  hold_beat_shadow : ℚ
  stored : Option Note
deriving DecidableEq, Repr

/-- A note not being dragged: its float shadows agree with its exact
beats and no drag-start snapshot is stored. -/
def HoldDragState.clean (n : Note) : HoldDragState :=
  { note := n, beat_shadow := n.beat, hold_beat_shadow := n.hold_beat,
    stored := none }

/-- The egui response events a drag zone can observe in one frame. -/
inductive DragEvent where
  | started
  | dragged (dy : ℚ)
  | stopped
deriving DecidableEq, Repr

/-- One frame of the closure `make_drag_zone(start)` of
`phichain-editor/src/timeline/note.rs` for the drag zone of a hold note:

* on `drag_started`, the note is snapshotted into temp data;
* on `dragged`, only the float shadow of the dragged endpoint moves —
  for the bottom zone (`start = true`) the shadow of `beat`, for the top
  zone the shadow of `hold_beat` via the new end position — and no
  command is emitted;
* on `drag_stopped`, the dragged endpoint is attached to the grid and a
  single `EditNote(entity, from, to)` is emitted iff `from != to`.

A `drag_stopped` without a preceding `drag_started` unwraps a missing
temp value in the source (a panic); it is modelled as emitting nothing,
and every theorem below runs gestures that begin with `started`. -/
def make_drag_zone (start : Bool) (ctx : DragContext) (entity : Entity)
    (s : HoldDragState) : DragEvent → HoldDragState × Option EditorCommand
  | .started => ({ s with stored := some s.note }, none)
  | .dragged dy =>
    if start then
      let new_y := ctx.beat_to_y s.beat_shadow + dy
      let new_beat := ctx.y_to_beat_f32 new_y
      ({ s with beat_shadow := s.beat_shadow + (new_beat - s.beat_shadow) },
        none)
    else
      let new_y := ctx.beat_to_y (s.beat_shadow + s.hold_beat_shadow) + dy
      let end_beat := ctx.y_to_beat_f32 new_y
      let hold_beat := end_beat - s.beat_shadow
      ({ s with
          hold_beat_shadow :=
            s.hold_beat_shadow + (hold_beat - s.hold_beat_shadow) },
        none)
  | .stopped =>
    match s.stored with
    | none => (s, none)
    | some old =>
      let note :=
        if start then
          { s.note with beat := ctx.attach s.beat_shadow }
        else
          let end_beat := ctx.attach (s.beat_shadow + s.hold_beat_shadow)
          s.note.set_end_beat end_beat
      let s' : HoldDragState :=
        { note := note, beat_shadow := note.beat,
          hold_beat_shadow := note.hold_beat, stored := none }
      if old ≠ note then
        (s', some (EditorCommand.EditNote entity old note))
      else
        (s', none)

/-- Run a drag zone over a list of frame events, collecting every command
it sends to the command stack. -/
def run_drag_zone (start : Bool) (ctx : DragContext) (entity : Entity)
    (s : HoldDragState) (events : List DragEvent) :
    HoldDragState × List EditorCommand :=
  events.foldl
    (fun acc ev =>
      let r := make_drag_zone start ctx entity acc.1 ev
      (r.1, acc.2 ++ r.2.toList))
    (s, [])

/-- Transform data of a line (`phichain_chart::line::Line`): the animated
visual components.  The editing core never inspects them, only moves
them around wholesale. -/
structure LineData where
  x : ℚ
  y : ℚ
  rotation : ℚ
  opacity : ℚ
  speed : ℚ
deriving DecidableEq, Repr

instance : Inhabited LineData := ⟨⟨0, 0, 0, 0, 0⟩⟩

/-- The components of a live, non-stripped line entity: its transform
data, its note and event children (modelled by value — their own entity
ids are not part of the observable chart state), and its `Parent`
component. -/
structure LineBody where
  data : LineData
  notes : List Note
  events : List LineEvent
  parent : Option Entity
deriving DecidableEq, Repr

/-- The slice of the Bevy `World` the line commands touch: every line
entity maps to either a full body or `none` for an empty shell (an
entity kept alive with all components stripped), plus the
`SelectedLine` resource.  Entities absent from the list do not exist. -/
structure World where
  lines : List (Entity × Option LineBody)
  selected_line : Entity
deriving DecidableEq, Repr

/-- Look up the slot of an entity: `none` when the entity does not exist,
`some none` for an empty shell, `some (some body)` for a live line. -/
def World.slot (w : World) (e : Entity) : Option (Option LineBody) :=
  (w.lines.find? (fun p => p.1 == e)).map (·.2)

/-- `world.entity(e).get::<Parent>()`. -/
def World.parentOf (w : World) (e : Entity) : Option Entity :=
  match w.slot e with
  | some (some body) => body.parent
  | _ => none

/-- Replace the slot of an entity, leaving every other entity alone. -/
def World.setSlot (w : World) (e : Entity) (s : Option LineBody) : World :=
  { w with lines := w.lines.map (fun p => if p.1 == e then (p.1, s) else p) }

/-- Update only the `Parent` component of a live line. -/
def World.setParent (w : World) (e : Entity) (parent : Option Entity) :
    World :=
  { w with
      lines := w.lines.map (fun p =>
        if p.1 == e then
          (p.1, p.2.map (fun body => { body with parent := parent }))
        else p) }

/-- `phichain_chart::serialization::LineWrapper`: the serialized content
of one line — its transform data, notes and events (the loader in
`phichain-game/src/loader.rs` destructures exactly these three
fields). -/
structure LineWrapper where
  data : LineData
  notes : List Note
  events : List LineEvent
deriving DecidableEq, Repr

instance : Inhabited LineWrapper := ⟨⟨default, [], []⟩⟩

/-- Modelled from the spec: `LineWrapper::serialize_line(world, entity)`
(the function itself lives in `phichain_chart`, outside the provided
sources) captures the serialized content of the line entity. -/
def serialize_line (w : World) (e : Entity) : LineWrapper :=
  match w.slot e with
  | some (some body) => ⟨body.data, body.notes, body.events⟩
  | _ => default

/-- Modelled from the spec:
`crate::utils::entity::replace_with_empty(world, entity)` (its definition
is outside the provided sources) strips the line entity to an empty
shell — all components removed, note/event children despawned — while
retaining the same entity identifier. -/
def replace_with_empty (w : World) (e : Entity) : World :=
  w.setSlot e none

/-- Modelled from the spec:
`SpawnLineEvent { line, parent, target }.run(world)` (its definition is
outside the provided sources) spawns a line from its serialized content;
with `target = some e` it restores the content and the parent into the
existing entity `e` and returns no fresh id. -/
def spawn_line_into (w : World) (e : Entity) (line : LineWrapper)
    (parent : Option Entity) : World :=
  w.setSlot e (some ⟨line.data, line.notes, line.events, parent⟩)

/-- The `RemoveLine` command (`editing/command/line.rs`): the target
entity, plus the captured serialized content and previous parent, filled
in at first apply. -/
structure RemoveLine where
  entity : Entity
  line : Option (LineWrapper × Option Entity)
deriving DecidableEq, Repr

/-- `RemoveLine::new(entity)`. -/
def RemoveLine.new (entity : Entity) : RemoveLine :=
  { entity := entity, line := none }

/-- `RemoveLine::edit`: capture the parent and the serialized line, then
strip the entity to an empty shell, keeping its id alive.  Returns the
mutated command (the source mutates `self`) and the new world. -/
def RemoveLine.edit (c : RemoveLine) (target : World) : RemoveLine × World :=
  let parent := target.parentOf c.entity
  let c' := { c with line := some (serialize_line target c.entity, parent) }
  (c', replace_with_empty target c.entity)

/-- `RemoveLine::undo`: restore the line entity and its children from the
captured snapshot, into the same entity id. -/
def RemoveLine.undo (c : RemoveLine) (target : World) : World :=
  match c.line with
  | none => target
  | some line => spawn_line_into target c.entity line.1 line.2

/-- The `MoveLineAsChild` command (`editing/command/line.rs`): move a line
as child of another line (`target = some parent`) or to the root
(`target = none`). -/
structure MoveLineAsChild where
  entity : Entity
  prev_parent : Option Entity
  target : Option Entity
deriving DecidableEq, Repr

/-- `MoveLineAsChild::new(entity, target)`. -/
def MoveLineAsChild.new (entity : Entity) (target : Option Entity) :
    MoveLineAsChild :=
  { entity := entity, prev_parent := none, target := target }

/-- `MoveLineAsChild::edit`: capture the previous parent, then
unconditionally remove the parent (`target = none`) or set it
(`target = some t`).  The source performs no descendant or self check
and its `Edit` impl has output type `()`, so there is no error path. -/
def MoveLineAsChild.edit (c : MoveLineAsChild) (world : World) :
    MoveLineAsChild × World :=
  let c' := { c with prev_parent := world.parentOf c.entity }
  match c.target with
  | none => (c', world.setParent c.entity none)
  | some target => (c', world.setParent c.entity (some target))

/-- `MoveLineAsChild::undo`: remove the parent, then restore the previous
parent when there was one. -/
def MoveLineAsChild.undo (c : MoveLineAsChild) (target : World) : World :=
  let w := target.setParent c.entity none
  match c.prev_parent with
  | none => w
  | some prev_parent => w.setParent c.entity (some prev_parent)

/-- `y` is a descendant of `x` in the line-parent forest (including
`y = x`), following at most `fuel` parent links.  With
`fuel = w.lines.length` this decides the spec's descendant relation on
any world whose parent chains do not cycle. -/
def World.isDescendant (w : World) : ℕ → Entity → Entity → Bool
  | 0, y, x => y == x
  | fuel + 1, y, x =>
    y == x ||
      match w.parentOf y with
      | some p => w.isDescendant fuel p x
      | none => false

/-- A registered action (`phichain-editor/src/action/mod.rs`): the boxed
system to run against the world and whether a hotkey drives it.  `W` is
the state the action systems mutate. -/
structure RegisteredAction (W : Type) where
  system : W → W
  enable_hotkey : Bool

/-- The `ActionRegistry` resource: a `bevy::utils::HashMap` from
identifier to registered action.  A hash map's iteration order is
unspecified and in particular unrelated to insertion order, so the model
carries the iteration order explicitly: `entries` lists the pairs in the
order `registry.0.iter()` yields them.  The registration (insertion)
order is a separate datum, related to `entries` only by permutation. -/
structure ActionRegistry (W : Type) where
  entries : List (Identifier × RegisteredAction W)

/-- `ActionRegistry::run_action`: look the id up in the map and run the
action against the world; an unknown id is only logged
(`error!("Failed to find action with id {}", id)`) and runs nothing. -/
def ActionRegistry.run_action {W : Type} (reg : ActionRegistry W) (world : W)
    (id : Identifier) : W :=
  match reg.entries.find? (fun p => p.1 == id) with
  | some p => p.2.system world
  | none => world

/-- `handle_action_hotkey_system`: with only a read borrow of the
registry, collect the id of every hotkey-enabled action whose hotkey
just matched this tick, in the map's iteration order; then, borrow
released, run the collected actions serially against the world. -/
def handle_action_hotkey_system {W : Type} (reg : ActionRegistry W)
    (just_pressed : Identifier → Bool) (world : W) : W :=
  let actions_to_run :=
    ((reg.entries.filter (fun p => p.2.enable_hotkey)).filter
        (fun p => just_pressed p.1)).map (·.1)
  if actions_to_run.isEmpty then world
  else actions_to_run.foldl (fun w id => reg.run_action w id) world

/-- Dispatch as claim C6 describes it: the matched actions run serially
in the order the actions were *registered*.  `reg_order` is the
registration order of the same actions; the ids still resolve through
the registry. -/
def dispatch_in_registration_order {W : Type}
    (reg_order : List (Identifier × RegisteredAction W))
    (reg : ActionRegistry W) (just_pressed : Identifier → Bool)
    (world : W) : W :=
  let actions_to_run :=
    ((reg_order.filter (fun p => p.2.enable_hotkey)).filter
        (fun p => just_pressed p.1)).map (·.1)
  actions_to_run.foldl (fun w id => reg.run_action w id) world

/-- A file path, modelled as a plain string. -/
abbrev FsPath : Type := String

/-- A filesystem operation the save system can issue.  `renameFile` is in
the vocabulary so that "the save writes a temp file and renames it" is
expressible; the embedded save system is then shown never to issue it. -/
inductive FsOp where
  | writeFile (path : FsPath) (content : String)
  | renameFile (src : FsPath) (dst : FsPath)
deriving DecidableEq, Repr

/-- Observable file contents, path to content. -/
abbrev Fs : Type := List (FsPath × String)

/-- Content of a file. -/
def Fs.get (fs : Fs) (p : FsPath) : Option String :=
  (List.find? (fun x => x.1 == p) fs).map (·.2)

/-- Overwrite (or create) a file: the new entry shadows any older entry
for the same path. -/
def Fs.set (fs : Fs) (p : FsPath) (c : String) : Fs :=
  (p, c) :: fs

/-- `std::fs::write(path, content)`: on failure (modelled by the
environment's failure predicate) the filesystem is untouched and `false`
(an `Err`) is returned. -/
def fs_write (fail : FsPath → Bool) (fs : Fs) (p : FsPath) (c : String) :
    Fs × Bool :=
  if fail p then (fs, false) else (fs.set p c, true)

/-- The save marker of the command stack: `EditorHistory` wraps an
`undo::history::History` whose `is_saved()` backs the dirty indicator in
the status bar (`main.rs`).  Only the saved flag is relevant here. -/
structure EditorHistory where
  is_saved : Bool
deriving DecidableEq, Repr

/-- A user-facing toast (`ToastsStorage`). -/
inductive Toast where
  | success
  | error
deriving DecidableEq, Repr

/-- The environment of one invocation of the save action: the project
file paths, the chart serialization produced by
`PhiChainExporter::export(world)` (`none` for an export error, in which
case the source's `if let Ok(chart)` skips the whole body), the
serialized `meta.json` content, and which write calls fail. -/
structure SaveEnv where
  chart_path : FsPath
  meta_path : FsPath
  export_result : Option String
  meta_content : String
  fail_write : FsPath → Bool

/-- Result of running the save action: the filesystem, the trace of
filesystem operations issued, the toast shown, and the editor history. -/
structure SaveResult where
  fs : Fs
  ops : List FsOp
  toast : Option Toast
  history : EditorHistory

/-- `save_project_system` (`src/project.rs`): if export succeeds, write
`chart.json` and then `meta.json` directly with `std::fs::write` (both
writes are attempted; there is no temporary file and no rename), then
toast success when `chart_result.and(meta_result)` is `Ok` and error
otherwise.  The editor history — and with it the save marker — is not
touched on any path. -/
def save_project_system (env : SaveEnv) (fs : Fs) (history : EditorHistory) :
    SaveResult :=
  match env.export_result with
  | none => { fs := fs, ops := [], toast := none, history := history }
  | some chart =>
    let chart_result := fs_write env.fail_write fs env.chart_path chart
    let meta_result :=
      fs_write env.fail_write chart_result.1 env.meta_path env.meta_content
    { fs := meta_result.1,
      ops := [FsOp.writeFile env.chart_path chart,
              FsOp.writeFile env.meta_path env.meta_content],
      toast := some (if chart_result.2 && meta_result.2 then Toast.success
                     else Toast.error),
      history := history }

/-- A concrete clipboard for exercising the paste theorems: notes at
beats 2 and 3, one event spanning beats 4 to 5. -/
def pasteNoteA : Note := ⟨.tap, true, 2, 0, 1⟩

def pasteNoteB : Note := ⟨.tap, true, 3, 0, 1⟩

def pasteEventA : LineEvent := ⟨.x, 4, 5, 0, 1, .linear⟩

def pasteClipboardEx : EditorClipboard := ⟨[pasteNoteA, pasteNoteB], [pasteEventA]⟩

/-- A concrete paste environment: cursor at (10, 20) inside the viewport,
over a column bound to line 3, with identity conversions so the
quantized paste beat is 20. -/
def pasteContextEx : PasteContext :=
  ⟨some (10, 20), ⟨0, 100, 0, 100⟩, [⟨0, 50, some 3⟩, ⟨50, 100, none⟩],
    id, id, id⟩

/-- The paste environment `pasteContextEx` with the cursor moved below
the timeline viewport. -/
def pasteContextOutsideEx : PasteContext :=
  ⟨some (10, 200), ⟨0, 100, 0, 100⟩, [⟨0, 50, some 3⟩, ⟨50, 100, none⟩],
    id, id, id⟩

/-- The command list `handle_paste_system` emits for `pasteContextEx` /
`pasteClipboardEx`: creations into line 3, shifted by 18. -/
def pasteCmdsEx : List EditorCommand :=
  pasteClipboardEx.notes.map (fun note =>
    EditorCommand.CreateNote 3 { note with beat := note.beat + (20 - 2) }) ++
  pasteClipboardEx.events.map (fun event =>
    EditorCommand.CreateEvent 3 { event with
      start_beat := event.start_beat + (20 - 2),
      end_beat := event.end_beat + (20 - 2) })

/-- The payload of an `EditNote` command. -/
def edit_note_data : EditorCommand → Option (Entity × Note × Note)
  | .EditNote entity old new => some (entity, old, new)
  | _ => none

/-- A hold note at beat 1 with duration 2 (end beat 3). -/
def holdNoteEx : Note := ⟨.hold 2, true, 1, 0, 1⟩

/-- Concrete drag conversions: beat-to-y negation (later beats sit higher
on screen, at smaller y) and attachment to the half-beat grid. -/
def dragContextEx : DragContext :=
  ⟨fun q => -q, fun y => -y, fun q => (Int.floor (2 * q + 1/2) : ℚ) / 2⟩

/-- Drag conversions that snap every attached value to beat 2. -/
def constDragContext : DragContext := ⟨id, id, fun _ => 2⟩

/-- A world with line 1 a child of line 0, used against `MoveLineAsChild`.
Line 0 is selected. -/
def worldEx : World :=
  { lines := [(0, some ⟨default, [], [], none⟩),
      (1, some ⟨default, [], [], some 0⟩)],
    selected_line := 0 }

/-- A concrete save environment: export succeeds and both writes succeed. -/
def saveEnvEx : SaveEnv :=
  { chart_path := "chart.json", meta_path := "meta.json",
    export_result := some "CHART", meta_content := "META",
    fail_write := fun _ => false }

/-- `saveEnvEx` with the `meta.json` write failing. -/
def saveEnvFailMetaEx : SaveEnv :=
  { chart_path := "chart.json", meta_path := "meta.json",
    export_result := some "CHART", meta_content := "META",
    fail_write := fun p => p == "meta.json" }

/-- A hotkey-enabled action appending `k` to the world trace when run. -/
def actPush (k : ℕ) : RegisteredAction (List ℕ) :=
  { system := fun w => w ++ [k], enable_hotkey := true }

/-- The registration (insertion) order of the two actions: `a` first. -/
def regOrderC6 : List (Identifier × RegisteredAction (List ℕ)) :=
  [("a", actPush 1), ("b", actPush 2)]

/-- The same two actions as the hash map yields them: `b` first.  A
permutation of `regOrderC6`, as any hash-map iteration of the same
entries is. -/
def registryC6 : ActionRegistry (List ℕ) :=
  ⟨[("b", actPush 2), ("a", actPush 1)]⟩

theorem listMin_map_add (d : ℚ) (l : List ℚ) :
    listMin (l.map (fun q => q + d)) = (listMin l).map (fun q => q + d) := by
  induction l with
  | nil => rfl
  | cons q qs ih =>
    simp only [List.map_cons, listMin, ih]
    cases listMin qs with
    | none => rfl
    | some m => simp [min_add_add_right]

theorem listMin_eq_none (l : List ℚ) : listMin l = none ↔ l = [] := by
  cases l with
  | nil => simp [listMin]
  | cons q qs =>
    simp only [listMin]
    cases listMin qs <;> simp

theorem filterMap_some_comp {α β : Type} (f : α → β) (l : List α) :
    l.filterMap (fun a => some (f a)) = l.map f := by
  induction l with
  | nil => rfl
  | cons a l ih => simp [List.filterMap_cons, ih]

/-- Helper: under a cursor inside the viewport over some column and a
non-empty clipboard, `handle_paste_system` emits exactly one
`CommandSequence` of shifted creations. -/
theorem handle_paste_emits
    (ctx : PasteContext) (clipboard : EditorClipboard) (selected_line : Entity)
    (cursor_position : ℚ × ℚ) (timeline : TimelineAllocation) (min_beat : ℚ)
    (hcursor : ctx.cursor = some cursor_position)
    (hview : ctx.viewport.containsPoint cursor_position = true)
    (hcol : ctx.columns.find? (fun x => x.containsX cursor_position.1) =
      some timeline)
    (hmin : clipboard_min_beat clipboard = some min_beat) :
    handle_paste_system ctx clipboard selected_line =
      some (EditorCommand.CommandSequence
        (clipboard.notes.map (fun note =>
          EditorCommand.CreateNote (timeline.line.getD selected_line)
            { note with beat := note.beat +
               (ctx.attach (ctx.beat_at (ctx.y_to_time cursor_position.2)) -
                 min_beat) }) ++
         clipboard.events.map (fun event =>
          EditorCommand.CreateEvent (timeline.line.getD selected_line)
            { event with
                start_beat := event.start_beat +
                  (ctx.attach (ctx.beat_at (ctx.y_to_time cursor_position.2)) -
                    min_beat),
                end_beat := event.end_beat +
                  (ctx.attach (ctx.beat_at (ctx.y_to_time cursor_position.2)) -
                    min_beat) }))) := by
  have hnn : ¬(clipboard.notes = [] ∧ clipboard.events = []) := by
    rintro ⟨h1, h2⟩
    rw [clipboard_min_beat, h1, h2] at hmin
    simp [listMin] at hmin
  simp only [handle_paste_system, hcursor, hcol, hmin, hview]
  simp [List.isEmpty_iff, List.append_eq_nil, List.map_eq_nil_iff, hnn]

/-- Helper: with an empty clipboard buffer, paste emits nothing, whatever
the cursor and timeline layout. -/
theorem handle_paste_none_of_empty
    (ctx : PasteContext) (clipboard : EditorClipboard) (selected_line : Entity)
    (hmin : clipboard_min_beat clipboard = none) :
    handle_paste_system ctx clipboard selected_line = none := by
  unfold handle_paste_system
  cases hc : ctx.cursor with
  | none => rfl
  | some cursor_position =>
    by_cases hv : ctx.viewport.containsPoint cursor_position = true
    · simp only [hv]
      cases hcol : ctx.columns.find?
          (fun x => x.containsX cursor_position.1) with
      | none => simp
      | some timeline => simp [hmin]
    · have hv2 : ctx.viewport.containsPoint cursor_position = false := by
        simpa using hv
      simp [hv2]

/-- C1: for every paste with a non-empty clipboard buffer, a cursor inside
the viewport over some timeline column, and quantized paste beat `p`, the
emitted command is a single `CommandSequence` of `CreateNote` /
`CreateEvent` commands in which every buffered note beat is shifted by
`delta = p - min_beat` and every buffered event has both endpoints
shifted by the same delta; consequently the minimum beat among the
pasted entities equals `p`. -/
theorem paste_shifts_to_quantized_beat
    (ctx : PasteContext) (clipboard : EditorClipboard) (selected_line : Entity)
    (cursor_position : ℚ × ℚ) (timeline : TimelineAllocation) (min_beat : ℚ)
    (hcursor : ctx.cursor = some cursor_position)
    (hview : ctx.viewport.containsPoint cursor_position = true)
    (hcol : ctx.columns.find? (fun x => x.containsX cursor_position.1) =
      some timeline)
    (hmin : clipboard_min_beat clipboard = some min_beat) :
    handle_paste_system ctx clipboard selected_line =
      some (EditorCommand.CommandSequence
        (clipboard.notes.map (fun note =>
          EditorCommand.CreateNote (timeline.line.getD selected_line)
            { note with beat := note.beat +
               (ctx.attach (ctx.beat_at (ctx.y_to_time cursor_position.2)) -
                 min_beat) }) ++
         clipboard.events.map (fun event =>
          EditorCommand.CreateEvent (timeline.line.getD selected_line)
            { event with
                start_beat := event.start_beat +
                  (ctx.attach (ctx.beat_at (ctx.y_to_time cursor_position.2)) -
                    min_beat),
                end_beat := event.end_beat +
                  (ctx.attach (ctx.beat_at (ctx.y_to_time cursor_position.2)) -
                    min_beat) }))) ∧
    listMin
      ((clipboard.notes.map (fun note =>
          EditorCommand.CreateNote (timeline.line.getD selected_line)
            { note with beat := note.beat +
               (ctx.attach (ctx.beat_at (ctx.y_to_time cursor_position.2)) -
                 min_beat) }) ++
        clipboard.events.map (fun event =>
          EditorCommand.CreateEvent (timeline.line.getD selected_line)
            { event with
                start_beat := event.start_beat +
                  (ctx.attach (ctx.beat_at (ctx.y_to_time cursor_position.2)) -
                    min_beat),
                end_beat := event.end_beat +
                  (ctx.attach (ctx.beat_at (ctx.y_to_time cursor_position.2)) -
                    min_beat) })).filterMap created_beat) =
      some (ctx.attach (ctx.beat_at (ctx.y_to_time cursor_position.2))) := by
  constructor
  · exact handle_paste_emits ctx clipboard selected_line cursor_position
      timeline min_beat hcursor hview hcol hmin
  · rw [List.filterMap_append, List.filterMap_map, List.filterMap_map]
    simp only [Function.comp_def, created_beat]
    rw [filterMap_some_comp, filterMap_some_comp]
    generalize ctx.attach (ctx.beat_at (ctx.y_to_time cursor_position.2)) = p
    rw [show (fun x : Note => x.beat + (p - min_beat)) =
        ((fun q => q + (p - min_beat)) ∘ (fun x : Note => x.beat)) from rfl,
      show (fun x : LineEvent => x.start_beat + (p - min_beat)) =
        ((fun q => q + (p - min_beat)) ∘ (fun x : LineEvent => x.start_beat))
        from rfl,
      ← List.map_map, ← List.map_map, ← List.map_append, listMin_map_add]
    rw [clipboard_min_beat] at hmin
    rw [hmin]
    simp only [Option.map]
    congr 1
    ring

/-- Witness for C1 at a concrete input: pasting notes at beats 2 and 3 and
an event at 4..5 with paste beat 20 yields creations shifted by 18. -/
theorem paste_shifts_to_quantized_beat_witness :
    handle_paste_system pasteContextEx pasteClipboardEx 9 =
      some (EditorCommand.CommandSequence
        (pasteClipboardEx.notes.map (fun note =>
          EditorCommand.CreateNote 3 { note with beat := note.beat + (20 - 2) }) ++
         pasteClipboardEx.events.map (fun event =>
          EditorCommand.CreateEvent 3 { event with
            start_beat := event.start_beat + (20 - 2),
            end_beat := event.end_beat + (20 - 2) }))) :=
  (paste_shifts_to_quantized_beat pasteContextEx pasteClipboardEx 9 (10, 20)
    ⟨0, 50, some 3⟩ 2 rfl (by decide) (by decide) (by decide)).1

/-- C8: paste targets the line bound to the timeline column under the
cursor, falling back to the globally selected line for an unbound
column; with the cursor outside the timeline viewport it emits no
command (and, emitting nothing, changes neither the chart nor the
clipboard, which paste can only read). -/
theorem paste_target_line_selection
    (ctx : PasteContext) (clipboard : EditorClipboard) (selected_line : Entity)
    (cursor_position : ℚ × ℚ)
    (hcursor : ctx.cursor = some cursor_position) :
    (ctx.viewport.containsPoint cursor_position = false →
      handle_paste_system ctx clipboard selected_line = none) ∧
    (∀ timeline cmds,
      ctx.columns.find? (fun x => x.containsX cursor_position.1) =
        some timeline →
      handle_paste_system ctx clipboard selected_line =
        some (EditorCommand.CommandSequence cmds) →
      ∀ cmd ∈ cmds,
        created_line cmd = some (timeline.line.getD selected_line)) := by
  constructor
  · intro hv
    simp [handle_paste_system, hcursor, hv]
  · intro timeline cmds hcol hres cmd hcmd
    by_cases hv : ctx.viewport.containsPoint cursor_position = true
    · cases hmin : clipboard_min_beat clipboard with
      | none =>
        rw [handle_paste_none_of_empty ctx clipboard selected_line hmin]
          at hres
        exact Option.noConfusion hres
      | some min_beat =>
        rw [handle_paste_emits ctx clipboard selected_line cursor_position
          timeline min_beat hcursor hv hcol hmin] at hres
        simp only [Option.some.injEq,
          EditorCommand.CommandSequence.injEq] at hres
        subst hres
        rcases List.mem_append.1 hcmd with hc | hc
        · rcases List.mem_map.1 hc with ⟨note, _, rfl⟩
          rfl
        · rcases List.mem_map.1 hc with ⟨event, _, rfl⟩
          rfl
    · have hv2 : ctx.viewport.containsPoint cursor_position = false := by
        simpa using hv
      simp [handle_paste_system, hcursor, hv2] at hres

/-- Witness for C8 at concrete inputs: a cursor below the viewport makes
paste a no-op, and with the cursor over the column bound to line 3 every
emitted creation targets line 3. -/
theorem paste_target_line_selection_witness :
    handle_paste_system pasteContextOutsideEx pasteClipboardEx 9 = none ∧
    ∀ cmd ∈ pasteCmdsEx, created_line cmd = some 3 := by
  constructor
  · exact (paste_target_line_selection pasteContextOutsideEx pasteClipboardEx 9
      (10, 200) rfl).1 (by decide)
  · exact (paste_target_line_selection pasteContextEx pasteClipboardEx 9
      (10, 20) rfl).2 ⟨0, 50, some 3⟩ pasteCmdsEx (by decide)
      (handle_paste_emits pasteContextEx pasteClipboardEx 9 (10, 20)
        ⟨0, 50, some 3⟩ 2 rfl (by decide) (by decide) (by decide))

/-- Helper: the cut loop leaves the accumulator alone when no selected
entity is a note or an event. -/
theorem cut_foldl_other (l : List (Entity × SelectedKind))
    (acc : EditorClipboard × List EditorCommand)
    (h : ∀ x ∈ l, x.2 = SelectedKind.other) :
    l.foldl cut_step acc = acc := by
  induction l generalizing acc with
  | nil => rfl
  | cons a l ih =>
    have ha : a.2 = SelectedKind.other := h a (List.mem_cons_self a l)
    have hstep : cut_step acc a = acc := by
      unfold cut_step
      rw [ha]
    rw [List.foldl_cons, hstep]
    exact ih acc (fun x hx => h x (List.mem_cons_of_mem a hx))

/-- C9: every cut press emits exactly one `CommandSequence`; with a
selection holding no notes and no events the emitted sequence is empty
but still submitted, whereas paste with an empty clipboard emits
nothing. -/
theorem cut_always_emits_command_sequence
    (selected : List (Entity × SelectedKind)) :
    (∃ cmds,
      (handle_cut_system selected).2 = EditorCommand.CommandSequence cmds) ∧
    ((∀ x ∈ selected, x.2 = SelectedKind.other) →
      (handle_cut_system selected).2 = EditorCommand.CommandSequence []) ∧
    (∀ (ctx : PasteContext) (clipboard : EditorClipboard)
        (selected_line : Entity),
      clipboard.notes = [] → clipboard.events = [] →
      handle_paste_system ctx clipboard selected_line = none) := by
  refine ⟨⟨(selected.foldl cut_step (EditorClipboard.clear, [])).2, rfl⟩, ?_, ?_⟩
  · intro h
    unfold handle_cut_system
    rw [cut_foldl_other selected (EditorClipboard.clear, []) h]
  · intro ctx clipboard selected_line h1 h2
    apply handle_paste_none_of_empty
    rw [clipboard_min_beat, h1, h2]
    rfl

/-- Witness for C9 at concrete inputs: cutting a selection holding only a
non-note, non-event entity still submits a (now empty) `CommandSequence`,
and pasting with an empty clipboard emits nothing. -/
theorem cut_always_emits_command_sequence_witness :
    (handle_cut_system [((5 : Entity), SelectedKind.other)]).2 =
      EditorCommand.CommandSequence [] ∧
    handle_paste_system pasteContextEx ⟨[], []⟩ 9 = none := by
  constructor
  · exact (cut_always_emits_command_sequence
      [((5 : Entity), SelectedKind.other)]).2.1 (by decide)
  · exact (cut_always_emits_command_sequence []).2.2 pasteContextEx ⟨[], []⟩ 9
      rfl rfl

theorem run_drag_zone_foldl (start : Bool) (ctx : DragContext)
    (entity : Entity) (l : List DragEvent) (s : HoldDragState)
    (acc : List EditorCommand) :
    l.foldl
      (fun acc ev =>
        let r := make_drag_zone start ctx entity acc.1 ev
        (r.1, acc.2 ++ r.2.toList))
      (s, acc) =
    ((run_drag_zone start ctx entity s l).1,
      acc ++ (run_drag_zone start ctx entity s l).2) := by
  induction l generalizing s acc with
  | nil => simp [run_drag_zone]
  | cons ev l ih =>
    rw [run_drag_zone, List.foldl_cons, List.foldl_cons, ih, ih]
    simp

theorem run_drag_zone_cons (start : Bool) (ctx : DragContext)
    (entity : Entity) (ev : DragEvent) (l : List DragEvent)
    (s : HoldDragState) :
    run_drag_zone start ctx entity s (ev :: l) =
      ((run_drag_zone start ctx entity
          (make_drag_zone start ctx entity s ev).1 l).1,
        (make_drag_zone start ctx entity s ev).2.toList ++
          (run_drag_zone start ctx entity
            (make_drag_zone start ctx entity s ev).1 l).2) := by
  rw [run_drag_zone, List.foldl_cons, run_drag_zone_foldl]
  simp

theorem run_drag_zone_append (start : Bool) (ctx : DragContext)
    (entity : Entity) (l1 l2 : List DragEvent) (s : HoldDragState) :
    run_drag_zone start ctx entity s (l1 ++ l2) =
      ((run_drag_zone start ctx entity
          (run_drag_zone start ctx entity s l1).1 l2).1,
        (run_drag_zone start ctx entity s l1).2 ++
          (run_drag_zone start ctx entity
            (run_drag_zone start ctx entity s l1).1 l2).2) := by
  rw [run_drag_zone, List.foldl_append]
  rw [show l1.foldl
      (fun acc ev =>
        let r := make_drag_zone start ctx entity acc.1 ev
        (r.1, acc.2 ++ r.2.toList)) (s, []) =
      run_drag_zone start ctx entity s l1 from rfl]
  rw [show (run_drag_zone start ctx entity s l1) =
      ((run_drag_zone start ctx entity s l1).1,
        (run_drag_zone start ctx entity s l1).2) from rfl]
  rw [run_drag_zone_foldl]

/-- Helper: during the drag itself the zone only moves the float shadows:
no command is emitted, and the note component and the stored snapshot
are untouched. -/
theorem run_drag_zone_dragged (start : Bool) (ctx : DragContext)
    (entity : Entity) (deltas : List ℚ) (s : HoldDragState) :
    (run_drag_zone start ctx entity s
        (deltas.map DragEvent.dragged)).2 = [] ∧
    (run_drag_zone start ctx entity s
        (deltas.map DragEvent.dragged)).1.note = s.note ∧
    (run_drag_zone start ctx entity s
        (deltas.map DragEvent.dragged)).1.stored = s.stored := by
  induction deltas generalizing s with
  | nil => exact ⟨rfl, rfl, rfl⟩
  | cons d deltas ih =>
    rw [List.map_cons, run_drag_zone_cons]
    have hstep :
        (make_drag_zone start ctx entity s (DragEvent.dragged d)).2 = none ∧
        (make_drag_zone start ctx entity s
          (DragEvent.dragged d)).1.note = s.note ∧
        (make_drag_zone start ctx entity s
          (DragEvent.dragged d)).1.stored = s.stored := by
      cases start <;> simp [make_drag_zone]
    rcases ih (make_drag_zone start ctx entity s (DragEvent.dragged d)).1
      with ⟨h1, h2, h3⟩
    refine ⟨?_, ?_, ?_⟩
    · simp [hstep.1, h1]
    · rw [h2, hstep.2.1]
    · rw [h3, hstep.2.2]

/-- Helper: the full anatomy of one drag gesture
`started, dragged deltas, stopped` from an undragged hold state: nothing
is emitted before the stop; the post-drag note is the snapshot with the
dragged endpoint attached to the grid; the stop emits a single
`EditNote` exactly when the result differs from the snapshot. -/
theorem run_drag_zone_gesture (start : Bool) (ctx : DragContext)
    (entity : Entity) (n : Note) (deltas : List ℚ)
    (mid fin : HoldDragState × List EditorCommand)
    (hmid : run_drag_zone start ctx entity (HoldDragState.clean n)
      (DragEvent.started :: deltas.map DragEvent.dragged) = mid)
    (hfin : run_drag_zone start ctx entity (HoldDragState.clean n)
      ((DragEvent.started :: deltas.map DragEvent.dragged) ++
        [DragEvent.stopped]) = fin) :
    mid.2 = [] ∧
    fin.1.note =
      (if start then
        { n with beat := ctx.attach mid.1.beat_shadow }
      else
        n.set_end_beat
          (ctx.attach (mid.1.beat_shadow + mid.1.hold_beat_shadow))) ∧
    fin.2 =
      (if fin.1.note = n then []
      else [EditorCommand.EditNote entity n fin.1.note]) := by
  have hstep : make_drag_zone start ctx entity (HoldDragState.clean n)
      DragEvent.started =
      ({ note := n, beat_shadow := n.beat, hold_beat_shadow := n.hold_beat,
          stored := some n }, none) := rfl
  have hges : run_drag_zone start ctx entity (HoldDragState.clean n)
      (DragEvent.started :: deltas.map DragEvent.dragged) =
      run_drag_zone start ctx entity
        { note := n, beat_shadow := n.beat, hold_beat_shadow := n.hold_beat,
          stored := some n } (deltas.map DragEvent.dragged) := by
    rw [run_drag_zone_cons, hstep]
    simp
  rcases run_drag_zone_dragged start ctx entity deltas
      { note := n, beat_shadow := n.beat, hold_beat_shadow := n.hold_beat,
        stored := some n } with ⟨hd1, hd2, hd3⟩
  have hmid2 : mid.2 = [] := by rw [← hmid, hges]; exact hd1
  have hmidnote : mid.1.note = n := by rw [← hmid, hges]; exact hd2
  have hmidstored : mid.1.stored = some n := by rw [← hmid, hges]; exact hd3
  have hfinsplit : fin =
      ((run_drag_zone start ctx entity mid.1 [DragEvent.stopped]).1,
        mid.2 ++
          (run_drag_zone start ctx entity mid.1 [DragEvent.stopped]).2) := by
    rw [← hfin, run_drag_zone_append, hmid]
  have hstop : run_drag_zone start ctx entity mid.1 [DragEvent.stopped] =
      ((make_drag_zone start ctx entity mid.1 DragEvent.stopped).1,
        (make_drag_zone start ctx entity mid.1 DragEvent.stopped).2.toList) := by
    rw [run_drag_zone_cons]
    simp [run_drag_zone]
  have hmk : make_drag_zone start ctx entity mid.1 DragEvent.stopped =
      (let note :=
        if start then { n with beat := ctx.attach mid.1.beat_shadow }
        else n.set_end_beat
          (ctx.attach (mid.1.beat_shadow + mid.1.hold_beat_shadow))
      ({ note := note, beat_shadow := note.beat,
          hold_beat_shadow := note.hold_beat, stored := none },
        if n ≠ note then some (EditorCommand.EditNote entity n note)
        else none)) := by
    simp only [make_drag_zone, hmidstored, hmidnote]
    split_ifs with h <;> rfl
  refine ⟨hmid2, ?_, ?_⟩
  · rw [hfinsplit, hstop, hmk]
  · rw [hfinsplit, hstop, hmk, hmid2]
    by_cases hto :
        (if start then { n with beat := ctx.attach mid.1.beat_shadow }
        else n.set_end_beat
          (ctx.attach (mid.1.beat_shadow + mid.1.hold_beat_shadow))) = n
    · simp [hto]
    · simp [hto, Ne.symm hto]

/-- C7: for every hold-resize drag gesture, no command is emitted during
the drag itself; on drag-stop a single `EditNote(id, from, to)` is
emitted exactly when the quantized post-drag note state `to` differs
from the drag-start snapshot `from`, and nothing is emitted when they
are equal. -/
theorem hold_drag_emits_single_edit_on_stop
    (start : Bool) (ctx : DragContext) (entity : Entity) (n : Note)
    (deltas : List ℚ) :
    (run_drag_zone start ctx entity (HoldDragState.clean n)
        (DragEvent.started :: deltas.map DragEvent.dragged)).2 = [] ∧
    (run_drag_zone start ctx entity (HoldDragState.clean n)
        ((DragEvent.started :: deltas.map DragEvent.dragged) ++
          [DragEvent.stopped])).2 =
      (if (run_drag_zone start ctx entity (HoldDragState.clean n)
            ((DragEvent.started :: deltas.map DragEvent.dragged) ++
              [DragEvent.stopped])).1.note = n then []
      else [EditorCommand.EditNote entity n
        (run_drag_zone start ctx entity (HoldDragState.clean n)
            ((DragEvent.started :: deltas.map DragEvent.dragged) ++
              [DragEvent.stopped])).1.note]) := by
  rcases run_drag_zone_gesture start ctx entity n deltas _ _ rfl rfl
    with ⟨h1, _, h3⟩
  exact ⟨h1, h3⟩

/-- C3 (amended): dragging the bottom (`start_beat`) resize zone of a
hold and stopping changes only the note's `beat` (attached to the grid);
`hold_beat` is left unchanged, so `end_beat = beat + hold_beat` moves by
the same delta as `beat` instead of being preserved; the gesture emits
at most one command, the single `EditNote` carrying that state. -/
theorem hold_drag_start_preserves_hold_beat
    (ctx : DragContext) (entity : Entity) (n : Note) (deltas : List ℚ)
    (fin : HoldDragState × List EditorCommand)
    (hfin : run_drag_zone true ctx entity (HoldDragState.clean n)
      ((DragEvent.started :: deltas.map DragEvent.dragged) ++
        [DragEvent.stopped]) = fin) :
    fin.1.note.kind = n.kind ∧
    fin.1.note.hold_beat = n.hold_beat ∧
    fin.1.note.x = n.x ∧
    fin.1.note.above = n.above ∧
    fin.1.note.speed = n.speed ∧
    fin.1.note.end_beat - n.end_beat = fin.1.note.beat - n.beat ∧
    (fin.2 = [] ∨
      fin.2 = [EditorCommand.EditNote entity n fin.1.note]) := by
  rcases run_drag_zone_gesture true ctx entity n deltas _ fin rfl hfin
    with ⟨-, h2, h3⟩
  rw [if_pos rfl] at h2
  refine ⟨by rw [h2], ?_, by rw [h2], by rw [h2], by rw [h2], ?_, ?_⟩
  · rw [h2]
    simp [Note.hold_beat]
  · rw [h2]
    simp only [Note.end_beat, Note.hold_beat]
    ring
  · rw [h3]
    by_cases hto : fin.1.note = n
    · exact Or.inl (if_pos hto)
    · exact Or.inr (if_neg hto)

/-- C3 counterexample: dragging the bottom (start) zone of the hold at
beat 1 / hold_beat 2 so that the start attaches to beat 3/2 emits an
`EditNote` whose `to` state is beat 3/2 with `hold_beat` still 2 — the
hold_beat does not auto-adjust to 3/2 and `end_beat` becomes 7/2 rather
than staying 3. -/
theorem hold_drag_start_end_beat_not_preserved :
    ((run_drag_zone true dragContextEx 7 (HoldDragState.clean holdNoteEx)
        [DragEvent.started, DragEvent.dragged (-2/5),
          DragEvent.stopped]).2).map edit_note_data =
      [some (7, holdNoteEx, { holdNoteEx with beat := 3/2 })] ∧
    ({ holdNoteEx with beat := 3/2 } : Note).hold_beat = 2 ∧
    ¬ ({ holdNoteEx with beat := 3/2 } : Note).hold_beat = 3/2 ∧
    ¬ Note.end_beat { holdNoteEx with beat := 3/2 } =
        Note.end_beat holdNoteEx := by
  have h1 : make_drag_zone true dragContextEx 7 (HoldDragState.clean holdNoteEx)
      DragEvent.started = (⟨holdNoteEx, 1, 2, some holdNoteEx⟩, none) := rfl
  have h2 : make_drag_zone true dragContextEx 7
      ⟨holdNoteEx, 1, 2, some holdNoteEx⟩ (DragEvent.dragged (-2/5)) =
      (⟨holdNoteEx, 7/5, 2, some holdNoteEx⟩, none) := by
    simp only [make_drag_zone, dragContextEx]
    norm_num
  have hattach : (Int.floor (2 * (7/5 : ℚ) + 1/2) : ℚ) / 2 = 3/2 := by
    have : Int.floor (2 * (7/5 : ℚ) + 1/2) = 3 := by
      rw [Int.floor_eq_iff]
      norm_num
    rw [this]
    norm_num
  have hne : holdNoteEx ≠ ({ holdNoteEx with beat := 3/2 } : Note) := by
    simp only [holdNoteEx, ne_eq, Note.mk.injEq]
    norm_num
  have h3 : make_drag_zone true dragContextEx 7
      ⟨holdNoteEx, 7/5, 2, some holdNoteEx⟩ DragEvent.stopped =
      (⟨{ holdNoteEx with beat := 3/2 }, 3/2, 2, none⟩,
        some (EditorCommand.EditNote 7 holdNoteEx
          { holdNoteEx with beat := 3/2 })) := by
    simp only [make_drag_zone, dragContextEx, if_true]
    rw [hattach]
    split_ifs with hcond
    · simp [holdNoteEx, Note.hold_beat]
    · exfalso
      apply hne
      simpa using hcond
  have hrun : run_drag_zone true dragContextEx 7
      (HoldDragState.clean holdNoteEx)
      [DragEvent.started, DragEvent.dragged (-2/5), DragEvent.stopped] =
      (⟨{ holdNoteEx with beat := 3/2 }, 3/2, 2, none⟩,
        [EditorCommand.EditNote 7 holdNoteEx
          { holdNoteEx with beat := 3/2 }]) := by
    rw [run_drag_zone_cons, h1, run_drag_zone_cons, h2, run_drag_zone_cons, h3]
    simp [run_drag_zone]
  refine ⟨?_, rfl, by norm_num [holdNoteEx, Note.hold_beat], ?_⟩
  · rw [hrun]
    rfl
  · simp only [Note.end_beat, Note.hold_beat, holdNoteEx]
    norm_num

/-- Witness for the amended C3 at a concrete input: a gesture on the hold
at beat 1 / hold_beat 2 whose start attaches to beat 2 leaves `hold_beat`
unchanged. -/
theorem hold_drag_start_preserves_hold_beat_witness :
    ({ holdNoteEx with beat := (2 : ℚ) } : Note).hold_beat =
      holdNoteEx.hold_beat :=
  (hold_drag_start_preserves_hold_beat constDragContext 7 holdNoteEx []
    (⟨{ holdNoteEx with beat := 2 }, 2, 2, none⟩,
      [EditorCommand.EditNote 7 holdNoteEx { holdNoteEx with beat := 2 }])
    rfl).2.1

/-- C4 counterexample: in `worldEx`, line 1 is a descendant of line 0, yet
`MoveLineAsChild(0, some 1)` applies: it has no error path, it changes
the chart (line 0 gains parent 1), and afterwards lines 0 and 1 are
descendants of each other — a cycle in the line-parent graph. -/
theorem move_line_as_child_accepts_descendant :
    worldEx.isDescendant 2 1 0 = true ∧
    (MoveLineAsChild.edit (MoveLineAsChild.new 0 (some 1)) worldEx).2 ≠
      worldEx ∧
    (MoveLineAsChild.edit (MoveLineAsChild.new 0 (some 1))
        worldEx).2.parentOf 0 = some 1 ∧
    (MoveLineAsChild.edit (MoveLineAsChild.new 0 (some 1))
        worldEx).2.isDescendant 2 0 1 = true ∧
    (MoveLineAsChild.edit (MoveLineAsChild.new 0 (some 1))
        worldEx).2.isDescendant 2 1 0 = true := by
  refine ⟨by decide, ?_, by decide, by decide, by decide⟩
  intro h
  have := congrArg (fun w => w.parentOf 0) h
  simp [World.parentOf, World.slot, MoveLineAsChild.edit, MoveLineAsChild.new,
    World.setParent, worldEx] at this

theorem find?_key_nodup (l : List (Entity × Option LineBody)) (e : Entity)
    (pr : Entity × Option LineBody)
    (hnd : (l.map Prod.fst).Nodup)
    (hfind : l.find? (fun p => p.1 == e) = some pr) :
    ∀ qr ∈ l, qr.1 = e → qr = pr := by
  induction l with
  | nil => cases hfind
  | cons a l ih =>
    rw [List.map_cons, List.nodup_cons] at hnd
    intro qr hq hqe
    by_cases ha : a.1 = e
    · rw [List.find?_cons_of_pos _ (by simpa using ha)] at hfind
      cases hfind
      rcases List.mem_cons.1 hq with rfl | hq2
      · rfl
      · exfalso
        apply hnd.1
        rw [ha, ← hqe]
        exact List.mem_map_of_mem Prod.fst hq2
    · rw [List.find?_cons_of_neg _ (by simpa using ha)] at hfind
      rcases List.mem_cons.1 hq with rfl | hq2
      · exact absurd hqe ha
      · exact ih hnd.2 hfind qr hq2 hqe

theorem slot_find (w : World) (e : Entity) (v : Option LineBody)
    (h : w.slot e = some v) :
    w.lines.find? (fun p => p.1 == e) = some (e, v) := by
  unfold World.slot at h
  cases hf : w.lines.find? (fun p => p.1 == e) with
  | none => rw [hf] at h; cases h
  | some pr =>
    obtain ⟨pk, pv⟩ := pr
    rw [hf] at h
    have hkey : pk = e := by
      have := List.find?_some hf
      simpa using this
    have hval : pv = v := by
      simpa using h
    rw [hkey, hval]

theorem find?_update_find (l : List (Entity × Option LineBody)) (e : Entity)
    (u : Entity × Option LineBody → Entity × Option LineBody)
    (hu : ∀ pr, (u pr).1 = pr.1) (pr : Entity × Option LineBody)
    (hfind : l.find? (fun p => p.1 == e) = some pr) :
    (l.map (fun p => if p.1 == e then u p else p)).find?
      (fun p => p.1 == e) = some (u pr) := by
  induction l with
  | nil => cases hfind
  | cons a l ih =>
    by_cases ha : a.1 = e
    · rw [List.find?_cons_of_pos _ (by simpa using ha)] at hfind
      cases hfind
      rw [List.map_cons, if_pos (by simpa using ha)]
      exact List.find?_cons_of_pos _ (by simpa [hu] using ha)
    · rw [List.find?_cons_of_neg _ (by simpa using ha)] at hfind
      rw [List.map_cons, if_neg (by simpa using ha)]
      rw [List.find?_cons_of_neg _ (by simpa using ha)]
      exact ih hfind

/-- Helper: updating the slot of an existing entity is visible in `slot`. -/
theorem slot_setSlot_self (w : World) (e : Entity) (s v : Option LineBody)
    (h : w.slot e = some v) :
    (w.setSlot e s).slot e = some s := by
  unfold World.setSlot World.slot
  have := find?_update_find w.lines e (fun p => (p.1, s)) (fun _ => rfl)
    (e, v) (slot_find w e v h)
  simp only [show (fun p : Entity × Option LineBody =>
      if p.1 == e then ((fun q : Entity × Option LineBody => (q.1, s)) p)
      else p) = (fun p : Entity × Option LineBody =>
      if p.1 == e then (p.1, s) else p) from rfl] at this
  rw [this]
  rfl

/-- Helper: setting an entity slot back to its current value is the
identity on the world, given unique entity keys. -/
theorem setSlot_restore (w : World) (e : Entity) (v : Option LineBody)
    (hnd : (w.lines.map Prod.fst).Nodup)
    (h : w.slot e = some v) :
    w.setSlot e v = w := by
  have hall := find?_key_nodup w.lines e (e, v) hnd (slot_find w e v h)
  unfold World.setSlot
  cases w with
  | mk lines selected_line =>
    simp only [World.mk.injEq, and_true]
    refine (List.map_congr_left ?_).trans (List.map_id lines)
    intro pr hpr
    by_cases hk : pr.1 = e
    · have := hall pr hpr hk
      rw [if_pos (by simpa using hk), this]
      rfl
    · rw [if_neg (by simpa using hk)]
      rfl

/-- Helper: two successive slot writes collapse to the last one. -/
theorem setSlot_setSlot (w : World) (e : Entity) (s1 s2 : Option LineBody) :
    (w.setSlot e s1).setSlot e s2 = w.setSlot e s2 := by
  unfold World.setSlot
  cases w with
  | mk lines selected_line =>
    simp only [World.mk.injEq, and_true, List.map_map]
    apply List.map_congr_left
    intro pr _
    by_cases hk : pr.1 = e
    · simp [hk]
    · simp [hk]

/-- C2: removing a line and undoing is the identity on the observable
chart: apply captures the serialized content and the parent, strips the
entity to an empty shell that keeps the same entity id alive, and undo
restores content and parent into that id; the selected-line reference is
untouched throughout. -/
theorem remove_line_undo_roundtrip (w : World) (e : Entity) (body : LineBody)
    (hnd : (w.lines.map Prod.fst).Nodup)
    (hbody : w.slot e = some (some body)) :
    ((RemoveLine.edit (RemoveLine.new e) w).2).slot e = some none ∧
    ((RemoveLine.edit (RemoveLine.new e) w).2).selected_line =
      w.selected_line ∧
    RemoveLine.undo (RemoveLine.edit (RemoveLine.new e) w).1
      (RemoveLine.edit (RemoveLine.new e) w).2 = w := by
  have hser : serialize_line w e = ⟨body.data, body.notes, body.events⟩ := by
    unfold serialize_line
    rw [hbody]
  have hpar : w.parentOf e = body.parent := by
    unfold World.parentOf
    rw [hbody]
  refine ⟨slot_setSlot_self w e none (some body) hbody, rfl, ?_⟩
  show RemoveLine.undo
    ⟨e, some (serialize_line w e, w.parentOf e)⟩ (w.setSlot e none) = w
  rw [hser, hpar]
  show (w.setSlot e none).setSlot e (some body) = w
  rw [setSlot_setSlot]
  exact setSlot_restore w e (some body) hnd hbody

/-- Witness for C2 at a concrete input: removing line 1 of `worldEx`
leaves an empty shell under id 1, keeps line 0 selected, and undo
restores the original world exactly. -/
theorem remove_line_undo_roundtrip_witness :
    ((RemoveLine.edit (RemoveLine.new 1) worldEx).2).slot 1 = some none ∧
    ((RemoveLine.edit (RemoveLine.new 1) worldEx).2).selected_line =
      worldEx.selected_line ∧
    RemoveLine.undo (RemoveLine.edit (RemoveLine.new 1) worldEx).1
      (RemoveLine.edit (RemoveLine.new 1) worldEx).2 = worldEx :=
  remove_line_undo_roundtrip worldEx 1 ⟨default, [], [], some 0⟩
    (by decide) (by decide)

/-- Helper: updating the parent of an existing line is visible in
`parentOf`. -/
theorem parentOf_setParent_self (w : World) (e : Entity)
    (parent : Option Entity) (body : LineBody)
    (hbody : w.slot e = some (some body)) :
    (w.setParent e parent).parentOf e = parent := by
  have h : (w.setParent e parent).slot e =
      some (some { body with parent := parent }) := by
    unfold World.setParent World.slot
    have := find?_update_find w.lines e
      (fun pr => (pr.1, pr.2.map (fun b => { b with parent := parent })))
      (fun _ => rfl) (e, some body) (slot_find w e (some body) hbody)
    simp only [show (fun p : Entity × Option LineBody =>
        if p.1 == e then
          ((fun q : Entity × Option LineBody =>
            (q.1, q.2.map (fun b => { b with parent := parent }))) p)
        else p) = (fun p : Entity × Option LineBody =>
        if p.1 == e then
          (p.1, p.2.map (fun b => { b with parent := parent }))
        else p) from rfl] at this
    rw [this]
    rfl
  unfold World.parentOf
  rw [h]

/-- Helper: two successive parent writes collapse to the last one. -/
theorem setParent_setParent (w : World) (e : Entity)
    (p1 p2 : Option Entity) :
    (w.setParent e p1).setParent e p2 = w.setParent e p2 := by
  unfold World.setParent
  cases w with
  | mk lines selected_line =>
    simp only [World.mk.injEq, and_true, List.map_map]
    apply List.map_congr_left
    intro pr _
    by_cases hk : pr.1 = e <;>
      simp [hk, Option.map_map, Function.comp_def]

/-- Helper: writing a line's current parent back is the identity on the
world, given unique entity keys. -/
theorem setParent_restore (w : World) (e : Entity) (body : LineBody)
    (hnd : (w.lines.map Prod.fst).Nodup)
    (hbody : w.slot e = some (some body)) :
    w.setParent e body.parent = w := by
  have hall := find?_key_nodup w.lines e (e, some body) hnd
    (slot_find w e (some body) hbody)
  unfold World.setParent
  cases w with
  | mk lines selected_line =>
    simp only [World.mk.injEq, and_true]
    refine (List.map_congr_left ?_).trans (List.map_id lines)
    intro pr hpr
    by_cases hk : pr.1 = e
    · have := hall pr hpr hk
      rw [if_pos (by simpa using hk), this]
      rfl
    · rw [if_neg (by simpa using hk)]
      rfl

/-- C4 (amended): `MoveLineAsChild` applies unconditionally — its `Edit`
impl has no error path and performs no descendant check: apply captures
the previous parent and sets the parent to the target (or detaches for
`none`), and undo restores the previous parent exactly. -/
theorem move_line_as_child_unconditional (w : World) (e : Entity)
    (target : Option Entity) (body : LineBody)
    (hnd : (w.lines.map Prod.fst).Nodup)
    (hbody : w.slot e = some (some body)) :
    ((MoveLineAsChild.edit (MoveLineAsChild.new e target) w).2).parentOf e =
      target ∧
    (MoveLineAsChild.edit (MoveLineAsChild.new e target) w).1.prev_parent =
      w.parentOf e ∧
    MoveLineAsChild.undo
      (MoveLineAsChild.edit (MoveLineAsChild.new e target) w).1
      (MoveLineAsChild.edit (MoveLineAsChild.new e target) w).2 = w := by
  have hpar : w.parentOf e = body.parent := by
    unfold World.parentOf
    rw [hbody]
  cases target with
  | none =>
    refine ⟨parentOf_setParent_self w e none body hbody, rfl, ?_⟩
    show MoveLineAsChild.undo ⟨e, w.parentOf e, none⟩ (w.setParent e none) = w
    unfold MoveLineAsChild.undo
    rw [hpar]
    cases hp : body.parent with
    | none =>
      simp only [setParent_setParent]
      rw [← hp]
      exact setParent_restore w e body hnd hbody
    | some p =>
      simp only [setParent_setParent]
      rw [← hp]
      exact setParent_restore w e body hnd hbody
  | some t =>
    refine ⟨parentOf_setParent_self w e (some t) body hbody, rfl, ?_⟩
    show MoveLineAsChild.undo ⟨e, w.parentOf e, some t⟩
      (w.setParent e (some t)) = w
    unfold MoveLineAsChild.undo
    rw [hpar]
    cases hp : body.parent with
    | none =>
      simp only [setParent_setParent]
      rw [← hp]
      exact setParent_restore w e body hnd hbody
    | some p =>
      simp only [setParent_setParent]
      rw [← hp]
      exact setParent_restore w e body hnd hbody

/-- Witness for the amended C4 at a concrete input: moving line 1 of
`worldEx` to the root records its previous parent 0 and undo restores
the world exactly. -/
theorem move_line_as_child_unconditional_witness :
    ((MoveLineAsChild.edit (MoveLineAsChild.new 1 none) worldEx).2).parentOf 1 =
      none ∧
    (MoveLineAsChild.edit (MoveLineAsChild.new 1 none) worldEx).1.prev_parent =
      worldEx.parentOf 1 ∧
    MoveLineAsChild.undo
      (MoveLineAsChild.edit (MoveLineAsChild.new 1 none) worldEx).1
      (MoveLineAsChild.edit (MoveLineAsChild.new 1 none) worldEx).2 = worldEx :=
  move_line_as_child_unconditional worldEx 1 none ⟨default, [], [], some 0⟩
    (by decide) (by decide)

theorem fs_get_set_self (fs : Fs) (p : FsPath) (c : String) :
    Fs.get (Fs.set fs p c) p = some c := by
  simp [Fs.get, Fs.set]

theorem fs_get_set_other (fs : Fs) (p q : FsPath) (c : String)
    (h : q ≠ p) :
    Fs.get (Fs.set fs p c) q = Fs.get fs q := by
  simp only [Fs.get, Fs.set]
  rw [List.find?_cons_of_neg]
  simpa using fun hh => h hh.symm

/-- C5 counterexample: a fully successful save issues exactly two direct
`writeFile` operations — no temporary file, no rename — and returns the
editor history untouched: starting dirty (`is_saved = false`), the
history is still dirty after the success toast, so the save-point marker
is not advanced even by a successful save.  Moreover, when the
`meta.json` write fails, the save reports an error yet `chart.json` has
already been replaced — the write pair is not atomic. -/
theorem save_no_rename_and_marker_untouched :
    (save_project_system saveEnvEx [] ⟨false⟩).ops =
      [FsOp.writeFile "chart.json" "CHART",
        FsOp.writeFile "meta.json" "META"] ∧
    ((save_project_system saveEnvEx [] ⟨false⟩).ops.all
      (fun op => match op with
        | FsOp.writeFile _ _ => true
        | FsOp.renameFile _ _ => false)) = true ∧
    (save_project_system saveEnvEx [] ⟨false⟩).toast = some Toast.success ∧
    (save_project_system saveEnvEx [] ⟨false⟩).history = ⟨false⟩ ∧
    (save_project_system saveEnvFailMetaEx [] ⟨false⟩).toast =
      some Toast.error ∧
    Fs.get (save_project_system saveEnvFailMetaEx [] ⟨false⟩).fs
      "chart.json" = some "CHART" ∧
    (save_project_system saveEnvFailMetaEx [] ⟨false⟩).history = ⟨false⟩ := by
  exact ⟨rfl, rfl, rfl, rfl, rfl, rfl, rfl⟩

/-- C5 (amended): saving writes `chart.json` and then `meta.json`
directly — every filesystem operation it issues is a plain write, never
a temp-file rename; a success toast appears exactly when export and both
writes succeed, an error toast when a write fails; the editor history
(and with it the save-point marker / `is_dirty`) is never modified, on
success or failure; and a save whose `meta.json` write fails has already
replaced `chart.json`, while the failed write leaves `meta.json` as it
was. -/
theorem save_project_direct_writes (env : SaveEnv) (fs : Fs)
    (history : EditorHistory)
    (hne : env.meta_path ≠ env.chart_path) :
    (save_project_system env fs history).history = history ∧
    ((save_project_system env fs history).ops.all
      (fun op => match op with
        | FsOp.writeFile _ _ => true
        | FsOp.renameFile _ _ => false)) = true ∧
    (env.export_result = none →
      (save_project_system env fs history).fs = fs ∧
      (save_project_system env fs history).toast = none) ∧
    (∀ chart, env.export_result = some chart →
      env.fail_write env.chart_path = false →
      env.fail_write env.meta_path = false →
      (save_project_system env fs history).toast = some Toast.success ∧
      Fs.get (save_project_system env fs history).fs env.chart_path =
        some chart ∧
      Fs.get (save_project_system env fs history).fs env.meta_path =
        some env.meta_content) ∧
    (∀ chart, env.export_result = some chart →
      env.fail_write env.chart_path = false →
      env.fail_write env.meta_path = true →
      (save_project_system env fs history).toast = some Toast.error ∧
      Fs.get (save_project_system env fs history).fs env.chart_path =
        some chart ∧
      Fs.get (save_project_system env fs history).fs env.meta_path =
        Fs.get fs env.meta_path) := by
  refine ⟨?_, ?_, ?_, ?_, ?_⟩
  · unfold save_project_system
    cases env.export_result <;> rfl
  · unfold save_project_system
    cases env.export_result <;> rfl
  · intro hnone
    unfold save_project_system
    rw [hnone]
    exact ⟨rfl, rfl⟩
  · intro chart hchart hcw hmw
    have hres : save_project_system env fs history =
        { fs := (fs.set env.chart_path chart).set env.meta_path
            env.meta_content,
          ops := [FsOp.writeFile env.chart_path chart,
            FsOp.writeFile env.meta_path env.meta_content],
          toast := some Toast.success, history := history } := by
      unfold save_project_system
      rw [hchart]
      simp [fs_write, hcw, hmw]
    rw [hres]
    refine ⟨rfl, ?_, fs_get_set_self _ _ _⟩
    rw [fs_get_set_other _ _ _ _ (Ne.symm hne)]
    exact fs_get_set_self _ _ _
  · intro chart hchart hcw hmw
    have hres : save_project_system env fs history =
        { fs := fs.set env.chart_path chart,
          ops := [FsOp.writeFile env.chart_path chart,
            FsOp.writeFile env.meta_path env.meta_content],
          toast := some Toast.error, history := history } := by
      unfold save_project_system
      rw [hchart]
      simp [fs_write, hcw, hmw]
    rw [hres]
    refine ⟨rfl, fs_get_set_self _ _ _, ?_⟩
    exact fs_get_set_other _ _ _ _ hne

/-- Witness for the amended C5 at a concrete input: with the `meta.json`
write failing, the save reports an error, leaves the history (and so the
save marker) untouched, and has nevertheless already replaced
`chart.json`. -/
theorem save_project_direct_writes_witness :
    (save_project_system saveEnvFailMetaEx [] ⟨false⟩).history = ⟨false⟩ ∧
    (save_project_system saveEnvFailMetaEx [] ⟨false⟩).toast =
      some Toast.error ∧
    Fs.get (save_project_system saveEnvFailMetaEx [] ⟨false⟩).fs
      "chart.json" = some "CHART" := by
  have h := save_project_direct_writes saveEnvFailMetaEx [] ⟨false⟩
    (by decide)
  have h5 := h.2.2.2.2 "CHART" rfl (by decide) (by decide)
  exact ⟨h.1, h5.1, h5.2.1⟩

/-- C6 counterexample: with both actions hotkey-enabled and just pressed,
the dispatcher of the source runs them in hash-map iteration order,
producing the trace `[2, 1]`, while running them in registration order —
what the claim states — produces `[1, 2]`. -/
theorem hotkey_dispatch_not_registration_order :
    registryC6.entries.Perm regOrderC6 ∧
    handle_action_hotkey_system registryC6 (fun _ => true) [] = [2, 1] ∧
    dispatch_in_registration_order regOrderC6 registryC6
      (fun _ => true) [] = [1, 2] ∧
    ([2, 1] : List ℕ) ≠ [1, 2] := by
  exact ⟨List.Perm.swap ("a", actPush 1) ("b", actPush 2) [],
    rfl, rfl, by decide⟩

theorem find?_mem_key_nodup {κ β : Type} [BEq κ] [LawfulBEq κ]
    (l : List (κ × β)) (pr : κ × β)
    (hnd : (l.map Prod.fst).Nodup) (hmem : pr ∈ l) :
    l.find? (fun q => q.1 == pr.1) = some pr := by
  induction l with
  | nil => cases hmem
  | cons a l ih =>
    rw [List.map_cons, List.nodup_cons] at hnd
    rcases List.mem_cons.1 hmem with rfl | hmem2
    · exact List.find?_cons_of_pos _ (by simp)
    · have hfalse : (a.1 == pr.1) = false := by
        rw [Bool.eq_false_iff]
        intro hh
        apply hnd.1
        rw [show a.1 = pr.1 from by simpa using hh]
        exact List.mem_map_of_mem Prod.fst hmem2
      simp only [List.find?_cons, hfalse]
      exact ih hnd.2 hmem2

theorem foldl_run_action_map {W : Type} (reg : ActionRegistry W)
    (l : List (Identifier × RegisteredAction W)) (w : W)
    (h : ∀ p ∈ l, reg.entries.find? (fun q => q.1 == p.1) = some p) :
    (l.map (·.1)).foldl (fun w id => reg.run_action w id) w =
      l.foldl (fun w p => p.2.system w) w := by
  induction l generalizing w with
  | nil => rfl
  | cons a l ih =>
    rw [List.map_cons, List.foldl_cons, List.foldl_cons]
    have ha : reg.run_action w a.1 = a.2.system w := by
      unfold ActionRegistry.run_action
      rw [h a (List.mem_cons_self a l)]
    rw [ha]
    exact ih (a.2.system w) (fun p hp => h p (List.mem_cons_of_mem a hp))

/-- C6 (amended): each tick, dispatch collects — holding only a read
borrow of the registry — the ids of every hotkey-enabled, just-pressed
action in the registry's hash-map iteration order, and then runs exactly
those actions' systems serially against the world in that same
collection order.  Iteration order of the underlying hash map is
unspecified and in particular not registration order. -/
theorem hotkey_dispatch_runs_matched_in_iteration_order {W : Type}
    (reg : ActionRegistry W) (just_pressed : Identifier → Bool) (w : W)
    (hnd : (reg.entries.map Prod.fst).Nodup) :
    handle_action_hotkey_system reg just_pressed w =
      ((reg.entries.filter (fun p => p.2.enable_hotkey)).filter
        (fun p => just_pressed p.1)).foldl (fun w p => p.2.system w) w := by
  unfold handle_action_hotkey_system
  by_cases hemp : (((reg.entries.filter (fun p => p.2.enable_hotkey)).filter
      (fun p => just_pressed p.1)).map (·.1)).isEmpty
  · rw [if_pos hemp]
    have : ((reg.entries.filter (fun p => p.2.enable_hotkey)).filter
        (fun p => just_pressed p.1)) = [] := by
      have := List.isEmpty_iff.1 hemp
      exact List.map_eq_nil_iff.1 this
    rw [this]
    rfl
  · rw [if_neg hemp]
    apply foldl_run_action_map
    intro p hp
    have hmem : p ∈ reg.entries :=
      List.mem_of_mem_filter (List.mem_of_mem_filter hp)
    exact find?_mem_key_nodup reg.entries p hnd hmem

/-- Witness for the amended C6 at a concrete input: for `registryC6` with
every hotkey pressed, dispatch equals the serial fold over the matched
entries in iteration order, concretely the trace `[2, 1]`. -/
theorem hotkey_dispatch_runs_matched_in_iteration_order_witness :
    handle_action_hotkey_system registryC6 (fun _ => true) [] = [2, 1] :=
  (hotkey_dispatch_runs_matched_in_iteration_order registryC6
    (fun _ => true) [] (by decide)).trans rfl

/-- C10: `run_action` with an identifier that is not registered leaves
the world unchanged — the failure is only logged and no action system
runs. -/
theorem run_action_unknown_id_noop {W : Type} (reg : ActionRegistry W)
    (w : W) (id : Identifier)
    (h : id ∉ reg.entries.map Prod.fst) :
    reg.run_action w id = w := by
  unfold ActionRegistry.run_action
  cases hf : reg.entries.find? (fun p => p.1 == id) with
  | none => rfl
  | some pr =>
    exfalso
    apply h
    have hp : pr.1 = id := by simpa using List.find?_some hf
    rw [← hp]
    exact List.mem_map_of_mem Prod.fst (List.mem_of_find?_eq_some hf)

/-- Witness for C10 at a concrete input: running the unregistered id `c`
against `registryC6` leaves the world trace unchanged. -/
theorem run_action_unknown_id_noop_witness :
    registryC6.run_action [5] "c" = [5] :=
  run_action_unknown_id_noop registryC6 [5] "c" (by decide)
